import Mathlib

/-!
Verification of the ensemble-generation core of
`california-redistricting-analysis` (`src/make_ensembles.py`).

The embedding models a gerrychain `Partition` by the aggregates the
statistic extractors actually read: the number of districts `K`, the
per-district `Tally` sums (`district_totpop`, `district_hispanic_latino_pop`
for the demographic run; `district_totvotes`, `district_democrat_votes`,
`district_republican_votes` for the voting run), and the set of cut edges.
Python numbers are modelled by exact rationals; Python division by zero
(a `ZeroDivisionError`) is modelled by `Option`-valued checked variants.
-/

namespace CalRedistricting

/-- Aggregates of a partition tracked by the demographic updaters
(`cut_edges`, `Tally total_pop`, `Tally hispanic_latino_pop`). -/
structure DemographicPartition where
  K : ℕ
  district_totpop : ℕ → ℚ
  district_hispanic_latino_pop : ℕ → ℚ
  cut_edges : Finset (ℕ × ℕ)

/-- Aggregates of a partition tracked by the voting updaters
(`cut_edges`, `Tally total_votes`, `Tally democrat_votes`,
`Tally republican_votes`). -/
structure VotingPartition where
  K : ℕ
  district_totvotes : ℕ → ℚ
  district_democrat_votes : ℕ → ℚ
  district_republican_votes : ℕ → ℚ
  cut_edges : Finset (ℕ × ℕ)

/-! ### Demographic walk (`__walk` of `make_demographic_ensembles`) -/

/-- Inner loop of the demographic `__walk`: count districts with
`part[district_hispanic_latino_pop][i] / part[district_totpop][i] > 0.5`. -/
def majmin_count (p : DemographicPartition) : ℕ :=
  (List.range p.K).foldl
    (fun count i =>
      if p.district_hispanic_latino_pop i / p.district_totpop i > 1/2 then
        count + 1
      else
        count)
    0

/-- Checked variant of `majmin_count`: the Python division
`part[district_hispanic_latino_pop][i] / part[district_totpop][i]`
raises `ZeroDivisionError` when the district total is zero. -/
def majmin_count_checked (p : DemographicPartition) : List ℕ → ℕ → Option ℕ
  | [], count => some count
  | i :: rest, count =>
    if p.district_totpop i = 0 then
      none
    else if p.district_hispanic_latino_pop i / p.district_totpop i > 1/2 then
      majmin_count_checked p rest (count + 1)
    else
      majmin_count_checked p rest count

/-- The demographic extractor with the division-by-zero error modelled. -/
def majmin_extract (p : DemographicPartition) : Option ℕ :=
  majmin_count_checked p (List.range p.K) 0

/-- The demographic `__walk` over the sequence of accepted chain states:
append `len(part[cut_edges])` and the majority count, one per state. -/
def walk_demographic (rw : List DemographicPartition) : List ℕ × List ℕ :=
  rw.foldl
    (fun acc part => (acc.1 ++ [part.cut_edges.card], acc.2 ++ [majmin_count part]))
    ([], [])

/-! ### Voting walk (`__walk` of `make_voting_ensembles`) -/

/-- Loop state of the voting `__walk` body: `seats`, `wasted_democrat`,
`wasted_republican`, `plan_totvotes`. -/
structure WalkAcc where
  seats : ℕ
  wasted_democrat : ℚ
  wasted_republican : ℚ
  plan_totvotes : ℚ
deriving DecidableEq

/-- One iteration of the per-district loop of the voting `__walk`. -/
def walkStep (p : VotingPartition) (acc : WalkAcc) (i : ℕ) : WalkAcc :=
  let totvotes := p.district_totvotes i
  let votes_needed := totvotes / 2
  let votes_republican := p.district_republican_votes i
  let votes_democrat := p.district_democrat_votes i
  if votes_republican / totvotes > 1/2 then
    { seats := acc.seats + 1
      wasted_democrat := acc.wasted_democrat + votes_democrat
      wasted_republican := acc.wasted_republican + (votes_republican - votes_needed)
      plan_totvotes := acc.plan_totvotes + totvotes }
  else if votes_democrat / totvotes > 1/2 then
    { seats := acc.seats
      wasted_democrat := acc.wasted_democrat + (votes_democrat - votes_needed)
      wasted_republican := acc.wasted_republican + votes_republican
      plan_totvotes := acc.plan_totvotes + totvotes }
  else
    { acc with plan_totvotes := acc.plan_totvotes + totvotes }

/-- The per-district loop of the voting `__walk`, run over all `K` districts. -/
def walkDistricts (p : VotingPartition) : WalkAcc :=
  (List.range p.K).foldl (walkStep p) ⟨0, 0, 0, 0⟩

/-- `republican_seats` entry appended per accepted state. -/
def republican_seats (p : VotingPartition) : ℕ :=
  (walkDistricts p).seats

/-- `efficiency_gap` entry appended per accepted state:
`(wasted_democrat - wasted_republican) / plan_totvotes`. -/
def efficiency_gap (p : VotingPartition) : ℚ :=
  ((walkDistricts p).wasted_democrat - (walkDistricts p).wasted_republican) /
    (walkDistricts p).plan_totvotes

/-- Checked variant of `walkStep`: the divisions
`votes_republican / totvotes` and `votes_democrat / totvotes` raise
`ZeroDivisionError` when `totvotes` is zero. -/
def walkStepChecked (p : VotingPartition) (acc : WalkAcc) (i : ℕ) : Option WalkAcc :=
  if p.district_totvotes i = 0 then none else some (walkStep p acc i)

/-- Checked per-district loop of the voting `__walk`. -/
def walkDistrictsChecked (p : VotingPartition) : List ℕ → WalkAcc → Option WalkAcc
  | [], acc => some acc
  | i :: rest, acc =>
    match walkStepChecked p acc i with
    | none => none
    | some acc2 => walkDistrictsChecked p rest acc2

/-- The voting extractor with division-by-zero errors modelled, returning
the pair (seats won by Republicans, efficiency gap); the final division
`(wasted_democrat - wasted_republican) / plan_totvotes` is also checked. -/
def voting_extract (p : VotingPartition) : Option (ℕ × ℚ) :=
  match walkDistrictsChecked p (List.range p.K) ⟨0, 0, 0, 0⟩ with
  | none => none
  | some acc =>
    if acc.plan_totvotes = 0 then none
    else some (acc.seats, (acc.wasted_democrat - acc.wasted_republican) / acc.plan_totvotes)

/-! ### Per-district contributions (closed forms of the loop body) -/

/-- Seat contribution of district `i` in the voting `__walk`. -/
def seatContrib (p : VotingPartition) (i : ℕ) : ℕ :=
  if p.district_republican_votes i / p.district_totvotes i > 1/2 then 1 else 0

/-- Republican wasted-vote contribution of district `i`. -/
def wastedRepublicanContrib (p : VotingPartition) (i : ℕ) : ℚ :=
  if p.district_republican_votes i / p.district_totvotes i > 1/2 then
    p.district_republican_votes i - p.district_totvotes i / 2
  else if p.district_democrat_votes i / p.district_totvotes i > 1/2 then
    p.district_republican_votes i
  else
    0

/-- Democrat wasted-vote contribution of district `i`. -/
def wastedDemocratContrib (p : VotingPartition) (i : ℕ) : ℚ :=
  if p.district_republican_votes i / p.district_totvotes i > 1/2 then
    p.district_democrat_votes i
  else if p.district_democrat_votes i / p.district_totvotes i > 1/2 then
    p.district_democrat_votes i - p.district_totvotes i / 2
  else
    0

/-! ### Helper lemmas -/

theorem walkStep_seats (p : VotingPartition) (acc : WalkAcc) (i : ℕ) :
    (walkStep p acc i).seats = acc.seats + seatContrib p i := by
  simp only [walkStep, seatContrib]
  split_ifs <;> simp

theorem walkStep_wasted_democrat (p : VotingPartition) (acc : WalkAcc) (i : ℕ) :
    (walkStep p acc i).wasted_democrat = acc.wasted_democrat + wastedDemocratContrib p i := by
  simp only [walkStep, wastedDemocratContrib]
  split_ifs <;> simp

theorem walkStep_wasted_republican (p : VotingPartition) (acc : WalkAcc) (i : ℕ) :
    (walkStep p acc i).wasted_republican = acc.wasted_republican + wastedRepublicanContrib p i := by
  simp only [walkStep, wastedRepublicanContrib]
  split_ifs <;> simp

theorem walkStep_plan_totvotes (p : VotingPartition) (acc : WalkAcc) (i : ℕ) :
    (walkStep p acc i).plan_totvotes = acc.plan_totvotes + p.district_totvotes i := by
  simp only [walkStep]
  split_ifs <;> simp

theorem foldl_seats (p : VotingPartition) (l : List ℕ) (acc : WalkAcc) :
    (l.foldl (walkStep p) acc).seats = acc.seats + (l.map (seatContrib p)).sum := by
  induction l generalizing acc with
  | nil => simp
  | cons a t ih =>
    rw [List.foldl_cons, ih, walkStep_seats]
    simp [Nat.add_assoc]

theorem foldl_wasted_democrat (p : VotingPartition) (l : List ℕ) (acc : WalkAcc) :
    (l.foldl (walkStep p) acc).wasted_democrat =
      acc.wasted_democrat + (l.map (wastedDemocratContrib p)).sum := by
  induction l generalizing acc with
  | nil => simp
  | cons a t ih =>
    rw [List.foldl_cons, ih, walkStep_wasted_democrat]
    simp [add_assoc]

theorem foldl_wasted_republican (p : VotingPartition) (l : List ℕ) (acc : WalkAcc) :
    (l.foldl (walkStep p) acc).wasted_republican =
      acc.wasted_republican + (l.map (wastedRepublicanContrib p)).sum := by
  induction l generalizing acc with
  | nil => simp
  | cons a t ih =>
    rw [List.foldl_cons, ih, walkStep_wasted_republican]
    simp [add_assoc]

theorem foldl_plan_totvotes (p : VotingPartition) (l : List ℕ) (acc : WalkAcc) :
    (l.foldl (walkStep p) acc).plan_totvotes =
      acc.plan_totvotes + (l.map (fun i => p.district_totvotes i)).sum := by
  induction l generalizing acc with
  | nil => simp
  | cons a t ih =>
    rw [List.foldl_cons, ih, walkStep_plan_totvotes]
    simp [add_assoc]

theorem walkDistricts_seats (p : VotingPartition) :
    (walkDistricts p).seats = ((List.range p.K).map (seatContrib p)).sum := by
  rw [walkDistricts, foldl_seats]
  simp

theorem walkDistricts_wasted_democrat (p : VotingPartition) :
    (walkDistricts p).wasted_democrat =
      ((List.range p.K).map (wastedDemocratContrib p)).sum := by
  rw [walkDistricts, foldl_wasted_democrat]
  simp

theorem walkDistricts_wasted_republican (p : VotingPartition) :
    (walkDistricts p).wasted_republican =
      ((List.range p.K).map (wastedRepublicanContrib p)).sum := by
  rw [walkDistricts, foldl_wasted_republican]
  simp

theorem walkDistricts_plan_totvotes (p : VotingPartition) :
    (walkDistricts p).plan_totvotes =
      ((List.range p.K).map (fun i => p.district_totvotes i)).sum := by
  rw [walkDistricts, foldl_plan_totvotes]
  simp

theorem half_lt_div_iff (v t : ℚ) (ht : 0 < t) : 1/2 < v / t ↔ t / 2 < v := by
  rw [lt_div_iff₀ ht]
  constructor <;> intro h <;> linarith

theorem foldl_count {α : Type} (q : α → Prop) [DecidablePred q] (l : List α) (n : ℕ) :
    l.foldl (fun c i => if q i then c + 1 else c) n =
      n + (l.filter (fun i => decide (q i))).length := by
  induction l generalizing n with
  | nil => simp
  | cons a t ih =>
    by_cases h : q a
    · simp [h, ih]
      omega
    · simp [h, ih]

/-! ### Cal 3 aggregation (`cutedges_cal3_1` etc.): element-wise sum by
`zip` of the three regional ensembles -/

/-- `[norcal + cal + socal for norcal, cal, socal in zip(ens_norcal,
ens_cal, ens_socal)]`: Python `zip` stops at the shortest sequence. -/
def cal3_combine : List ℚ → List ℚ → List ℚ → List ℚ
  | norcal :: ns, cal :: cs, socal :: ss =>
    (norcal + cal + socal) :: cal3_combine ns cs ss
  | _, _, _ => []

theorem cal3_combine_nil_left (ys zs : List ℚ) : cal3_combine [] ys zs = [] := by
  cases ys <;> cases zs <;> rfl

theorem cal3_combine_length (xs ys zs : List ℚ) :
    (cal3_combine xs ys zs).length = min (min xs.length ys.length) zs.length := by
  induction xs generalizing ys zs with
  | nil => cases ys <;> cases zs <;> simp [cal3_combine]
  | cons x xt ih =>
    cases ys with
    | nil => simp [cal3_combine]
    | cons y yt =>
      cases zs with
      | nil => simp [cal3_combine]
      | cons z zt =>
        simp only [cal3_combine, List.length_cons, ih]
        omega

theorem cal3_combine_getD (xs ys zs : List ℚ) (n : ℕ) (i : ℕ)
    (hx : xs.length = n) (hy : ys.length = n) (hz : zs.length = n) (hi : i < n) :
    (cal3_combine xs ys zs).getD i 0 = xs.getD i 0 + ys.getD i 0 + zs.getD i 0 := by
  induction xs generalizing ys zs n i with
  | nil =>
    simp only [List.length_nil] at hx
    omega
  | cons x xt ih =>
    cases ys with
    | nil =>
      simp only [List.length_nil] at hy
      simp only [List.length_cons] at hx
      omega
    | cons y yt =>
      cases zs with
      | nil =>
        simp only [List.length_nil] at hz
        simp only [List.length_cons] at hx
        omega
      | cons z zt =>
        cases i with
        | zero => simp [cal3_combine]
        | succ j =>
          simp only [List.length_cons] at hx hy hz
          simp only [cal3_combine, List.getD_cons_succ]
          exact ih yt zt (n - 1) j (by omega) (by omega) (by omega) (by omega)

/-! ### Scenario partitions from the specification -/

/-- A single district with subgroup population 51 out of total 100. -/
def district_51_of_100 : DemographicPartition :=
  ⟨1, fun _ => 100, fun _ => 51, ∅⟩

/-- A single district with subgroup population exactly 50 out of total 100. -/
def district_50_of_100 : DemographicPartition :=
  ⟨1, fun _ => 100, fun _ => 50, ∅⟩

/-- A single district with Republican votes 60, Democrat votes 40, cast total 100. -/
def sixty_forty : VotingPartition :=
  ⟨1, fun _ => 100, fun _ => 40, fun _ => 60, ∅⟩

/-- A single district tied 50 to 50 out of a cast total of 100. -/
def tie_50_50 : VotingPartition :=
  ⟨1, fun _ => 100, fun _ => 50, fun _ => 50, ∅⟩

/-! ### Chain driver and population constraint -/

/-- Modelled from the spec: gerrychain's
`constraints.within_percent_of_ideal_population` (library code, not under
`src/`) — "for every district, the tracked primary attribute sum must lie
within a fixed relative tolerance of that district's ideal value". -/
def pop_constraint (tol ideal : ℚ) (p : DemographicPartition) : Bool :=
  (List.range p.K).all
    (fun i => decide (|p.district_totpop i - ideal| ≤ tol * ideal))

/-- Modelled from the spec: the `MarkovChain` driver (gerrychain library
code, not under `src/`) — at each of the requested steps it draws candidate
partitions, discards candidates failing the validity constraint, accepts
the first valid one (`always_accept` beyond validity), and stops fatally if
no candidate is valid; it yields the sequence of accepted states. -/
def run_chain {P : Type} (valid : P → Bool)
    (propose : ℕ → P → List P) : ℕ → P → List P
  | 0, _ => []
  | n + 1, cur =>
    match (propose n cur).find? valid with
    | none => []
    | some next => next :: run_chain valid propose n next

theorem run_chain_valid {P : Type} (valid : P → Bool)
    (propose : ℕ → P → List P) (n : ℕ) (p0 : P) (q : P)
    (hq : q ∈ run_chain valid propose n p0) : valid q = true := by
  induction n generalizing p0 with
  | zero => simp [run_chain] at hq
  | succ m ih =>
    rcases hfind : (propose m p0).find? valid with _ | next
    · simp [run_chain, hfind] at hq
    · simp only [run_chain, hfind] at hq
      rcases List.mem_cons.1 hq with h | h
      · subst h
        exact List.find?_some hfind
      · exact ih next h

theorem pop_constraint_spec (tol ideal : ℚ) (p : DemographicPartition)
    (h : pop_constraint tol ideal p = true) :
    ∀ i < p.K, |p.district_totpop i - ideal| ≤ tol * ideal := by
  intro i hi
  have := List.all_eq_true.1 h i (List.mem_range.2 hi)
  exact of_decide_eq_true this

/-! ### Deterministic ensemble pipeline

Modelled from the spec: `recursive_tree_part` and the ReCom proposal
(gerrychain library code, not under `src/`) draw randomness only from the
shared generator, which `__random_partitions` reseeds with the caller's
seed before each build (`random.seed(seed)`, line 27); the model therefore
threads the seed explicitly and every stochastic collaborator is a pure
function of graph, seed and configuration. -/

/-- `__random_partitions`: one initial partition per seed, built by the
seeded tree partitioner over the given graph. -/
def random_partitions {G P : Type} (tree_part : G → ℕ → P)
    (graph : G) (seeds : List ℕ) : List P :=
  seeds.map (fun seed => tree_part graph seed)

/-- A full ensemble run: build one initial partition per seed, run the
chain for the requested steps, extract one statistic per accepted state. -/
def ensemble_run {G P : Type} (tree_part : G → ℕ → P) (valid : P → Bool)
    (propose : ℕ → P → List P) (extract : P → ℚ)
    (graph : G) (seeds : List ℕ) (steps : ℕ) : List (List ℚ) :=
  (random_partitions tree_part graph seeds).map
    (fun p0 => (run_chain valid propose steps p0).map extract)

/-! ### Claim theorems C3 and C4 -/

/-- C3: every accepted chain state (every partition the chain yields after
the initial state) has all of its districts' primary-attribute aggregates
within the configured relative tolerance (0.02, as this program uses) of
the ideal value. -/
theorem accepted_states_within_tolerance (ideal : ℚ)
    (propose : ℕ → DemographicPartition → List DemographicPartition)
    (n : ℕ) (p0 : DemographicPartition) (q : DemographicPartition)
    (hq : q ∈ run_chain (pop_constraint (2/100) ideal) propose n p0) :
    ∀ i < q.K, |q.district_totpop i - ideal| ≤ (2/100) * ideal :=
  pop_constraint_spec _ _ _ (run_chain_valid _ _ _ _ _ hq)

/-- Witness for C3: a one-step chain whose accepted state is the
51-of-100 district, with ideal population 100. -/
theorem accepted_states_within_tolerance_witness :
    |district_51_of_100.district_totpop 0 - 100| ≤ (2/100) * 100 := by
  have hv : pop_constraint (2/100) 100 district_51_of_100 = true := by
    norm_num [pop_constraint, district_51_of_100, List.range_succ]
  have hfind : ([district_51_of_100].find? (pop_constraint (2/100) 100)) =
      some district_51_of_100 :=
    List.find?_cons_of_pos _ hv
  have hmem : district_51_of_100 ∈
      run_chain (pop_constraint (2/100) 100) (fun _ _ => [district_51_of_100])
        1 district_51_of_100 := by
    simp [run_chain, hfind]
  exact accepted_states_within_tolerance 100 (fun _ _ => [district_51_of_100])
    1 district_51_of_100 district_51_of_100 hmem 0 (by norm_num [district_51_of_100])

/-- C4: two runs with identical graph, identical seeds, identical step
count and identical configuration (tree partitioner, validity constraint,
proposal, extractor) produce identical output ensemble sequences, and in
particular identical initial partitions. -/
theorem ensemble_run_deterministic {G P : Type}
    (tree_part tree_part2 : G → ℕ → P) (valid valid2 : P → Bool)
    (propose propose2 : ℕ → P → List P) (extract extract2 : P → ℚ)
    (g g2 : G) (seeds seeds2 : List ℕ) (steps steps2 : ℕ)
    (htp : tree_part = tree_part2) (hv : valid = valid2)
    (hpr : propose = propose2) (hex : extract = extract2)
    (hg : g = g2) (hs : seeds = seeds2) (hn : steps = steps2) :
    ensemble_run tree_part valid propose extract g seeds steps =
      ensemble_run tree_part2 valid2 propose2 extract2 g2 seeds2 steps2 ∧
    random_partitions tree_part g seeds = random_partitions tree_part2 g2 seeds2 := by
  subst htp hv hpr hex hg hs hn
  exact ⟨rfl, rfl⟩

/-- Witness for C4: the theorem applied to a concrete configuration. -/
theorem ensemble_run_deterministic_witness :
    ensemble_run (fun (g s : ℕ) => g + s) (fun _ => true) (fun _ p => [p])
        (fun p => (p : ℚ)) 0 [0] 1 =
      ensemble_run (fun (g s : ℕ) => g + s) (fun _ => true) (fun _ p => [p])
        (fun p => (p : ℚ)) 0 [0] 1 ∧
    random_partitions (fun (g s : ℕ) => g + s) 0 [0] =
      random_partitions (fun (g s : ℕ) => g + s) 0 [0] :=
  ensemble_run_deterministic _ _ _ _ _ _ _ _ _ _ _ _ _ _
    rfl rfl rfl rfl rfl rfl rfl

/-! ### Claim theorems -/

/-- C1: for every partition whose districts all have positive cast totals
(with the two tracked vote categories summing to at most the cast total),
the efficiency-gap extractor gives the winning party wasted votes equal to
its votes minus half the cast total, the losing party wasted votes equal to
all of its votes, and reports the gap
`(sum wasted Democrat - sum wasted Republican) / total cast votes`;
a district with winner votes 60 and loser votes 40 out of 100 contributes
10 wasted votes for the winner and 40 for the loser. -/
theorem efficiency_gap_spec (p : VotingPartition)
    (hpos : ∀ i < p.K, 0 < p.district_totvotes i)
    (hsum : ∀ i < p.K,
      p.district_democrat_votes i + p.district_republican_votes i ≤ p.district_totvotes i) :
    (∀ i < p.K, p.district_totvotes i / 2 < p.district_republican_votes i →
      wastedRepublicanContrib p i =
          p.district_republican_votes i - p.district_totvotes i / 2 ∧
        wastedDemocratContrib p i = p.district_democrat_votes i) ∧
    (∀ i < p.K, p.district_totvotes i / 2 < p.district_democrat_votes i →
      wastedDemocratContrib p i =
          p.district_democrat_votes i - p.district_totvotes i / 2 ∧
        wastedRepublicanContrib p i = p.district_republican_votes i) ∧
    efficiency_gap p =
      (((List.range p.K).map (wastedDemocratContrib p)).sum -
          ((List.range p.K).map (wastedRepublicanContrib p)).sum) /
        ((List.range p.K).map (fun i => p.district_totvotes i)).sum ∧
    wastedRepublicanContrib sixty_forty 0 = 10 ∧
    wastedDemocratContrib sixty_forty 0 = 40 := by
  refine ⟨?_, ?_, ?_, ?_, ?_⟩
  · intro i hi hwin
    have ht := hpos i hi
    have hcond : 1/2 < p.district_republican_votes i / p.district_totvotes i :=
      (half_lt_div_iff _ _ ht).2 hwin
    constructor
    · unfold wastedRepublicanContrib
      rw [if_pos hcond]
    · unfold wastedDemocratContrib
      rw [if_pos hcond]
  · intro i hi hwin
    have ht := hpos i hi
    have hrep : p.district_republican_votes i < p.district_totvotes i / 2 := by
      have := hsum i hi
      linarith
    have hnr : ¬ (1/2 < p.district_republican_votes i / p.district_totvotes i) := by
      rw [half_lt_div_iff _ _ ht]
      linarith
    have hcond : 1/2 < p.district_democrat_votes i / p.district_totvotes i :=
      (half_lt_div_iff _ _ ht).2 hwin
    constructor
    · unfold wastedDemocratContrib
      rw [if_neg hnr, if_pos hcond]
    · unfold wastedRepublicanContrib
      rw [if_neg hnr, if_pos hcond]
  · rw [efficiency_gap, walkDistricts_wasted_democrat, walkDistricts_wasted_republican,
      walkDistricts_plan_totvotes]
  · norm_num [wastedRepublicanContrib, sixty_forty]
  · norm_num [wastedDemocratContrib, sixty_forty]

/-- Witness for C1: the theorem applied to the 60/40/100 district. -/
theorem efficiency_gap_spec_witness :
    wastedRepublicanContrib sixty_forty 0 = 10 ∧
      wastedDemocratContrib sixty_forty 0 = 40 := by
  have h := efficiency_gap_spec sixty_forty
    (by intro i hi; norm_num [sixty_forty])
    (by intro i hi; norm_num [sixty_forty])
  exact ⟨h.2.2.2.1, h.2.2.2.2⟩

/-- C2: for every partition whose districts all have positive total
population, the subgroup-majority extractor returns exactly the number of
districts whose subgroup sum strictly exceeds half the district total;
a 51-of-100 district is counted and a 50-of-100 district is not. -/
theorem majmin_count_spec (p : DemographicPartition)
    (hpos : ∀ i < p.K, 0 < p.district_totpop i) :
    majmin_count p =
      ((List.range p.K).filter
        (fun i =>
          decide (p.district_totpop i / 2 < p.district_hispanic_latino_pop i))).length ∧
    majmin_count district_51_of_100 = 1 ∧
    majmin_count district_50_of_100 = 0 := by
  refine ⟨?_, ?_, ?_⟩
  · rw [majmin_count,
      foldl_count (fun i => p.district_hispanic_latino_pop i / p.district_totpop i > 1/2)]
    rw [Nat.zero_add]
    congr 1
    apply List.filter_congr
    intro i hi
    have ht := hpos i (List.mem_range.1 hi)
    simp only [gt_iff_lt, decide_eq_decide]
    exact half_lt_div_iff _ _ ht
  · norm_num [majmin_count, district_51_of_100, List.range_succ]
  · norm_num [majmin_count, district_50_of_100, List.range_succ]

/-- Witness for C2: the theorem applied to the 51-of-100 district. -/
theorem majmin_count_spec_witness :
    majmin_count district_51_of_100 =
      ((List.range district_51_of_100.K).filter
        (fun i =>
          decide (district_51_of_100.district_totpop i / 2 <
            district_51_of_100.district_hispanic_latino_pop i))).length :=
  (majmin_count_spec district_51_of_100
    (by intro i _; norm_num [district_51_of_100])).1

/-- C5: a district where neither party strictly exceeds half the cast total
contributes zero wasted votes for both parties and no seat, while its cast
total is still included in the denominator sum of the efficiency gap. -/
theorem tie_district_contributes_zero (p : VotingPartition) (i : ℕ) (_hi : i < p.K)
    (ht : 0 < p.district_totvotes i)
    (hr : p.district_republican_votes i ≤ p.district_totvotes i / 2)
    (hd : p.district_democrat_votes i ≤ p.district_totvotes i / 2) :
    wastedRepublicanContrib p i = 0 ∧
    wastedDemocratContrib p i = 0 ∧
    seatContrib p i = 0 ∧
    (walkDistricts p).wasted_democrat =
      ((List.range p.K).map (wastedDemocratContrib p)).sum ∧
    (walkDistricts p).wasted_republican =
      ((List.range p.K).map (wastedRepublicanContrib p)).sum ∧
    (walkDistricts p).plan_totvotes =
      ((List.range p.K).map (fun j => p.district_totvotes j)).sum := by
  have hnr : ¬ (1/2 < p.district_republican_votes i / p.district_totvotes i) := by
    rw [half_lt_div_iff _ _ ht]
    linarith
  have hnd : ¬ (1/2 < p.district_democrat_votes i / p.district_totvotes i) := by
    rw [half_lt_div_iff _ _ ht]
    linarith
  refine ⟨?_, ?_, ?_, walkDistricts_wasted_democrat p, walkDistricts_wasted_republican p,
    walkDistricts_plan_totvotes p⟩
  · unfold wastedRepublicanContrib
    rw [if_neg hnr, if_neg hnd]
  · unfold wastedDemocratContrib
    rw [if_neg hnr, if_neg hnd]
  · unfold seatContrib
    rw [if_neg hnr]

/-- Witness for C5: the theorem applied to the 50/50/100 district. -/
theorem tie_district_contributes_zero_witness :
    wastedRepublicanContrib tie_50_50 0 = 0 ∧
    wastedDemocratContrib tie_50_50 0 = 0 ∧
    seatContrib tie_50_50 0 = 0 ∧
    (walkDistricts tie_50_50).wasted_democrat =
      ((List.range tie_50_50.K).map (wastedDemocratContrib tie_50_50)).sum ∧
    (walkDistricts tie_50_50).wasted_republican =
      ((List.range tie_50_50.K).map (wastedRepublicanContrib tie_50_50)).sum ∧
    (walkDistricts tie_50_50).plan_totvotes =
      ((List.range tie_50_50.K).map (fun j => tie_50_50.district_totvotes j)).sum :=
  tie_district_contributes_zero tie_50_50 0 (by norm_num [tie_50_50])
    (by norm_num [tie_50_50]) (by norm_num [tie_50_50]) (by norm_num [tie_50_50])

/-! ### Seat apportionment checks (preludes of the two generators) -/

/-- Python 3 `round`: round half to even (banker's rounding). -/
def pyRound (q : ℚ) : ℤ :=
  if q - ⌊q⌋ < 1/2 then ⌊q⌋
  else if 1/2 < q - ⌊q⌋ then ⌊q⌋ + 1
  else if Even ⌊q⌋ then ⌊q⌋ else ⌊q⌋ + 1

/-- Whether an `Except` result is the raised-exception branch. -/
def isError {α : Type} : Except String α → Bool
  | Except.error _ => true
  | Except.ok _ => false

/-- The seat-apportionment prelude of `make_demographic_ensembles`:
compute each regional seat count as
`round(num_districts_california * (totpop / totpop_california))` and raise
unless the three counts sum to the statewide 52. -/
def demographic_seat_check (totpop_norcal totpop_cal totpop_socal totpop_california : ℚ) :
    Except String (ℤ × ℤ × ℤ) :=
  let num_districts_norcal := pyRound (52 * (totpop_norcal / totpop_california))
  let num_districts_cal := pyRound (52 * (totpop_cal / totpop_california))
  let num_districts_socal := pyRound (52 * (totpop_socal / totpop_california))
  if num_districts_norcal + num_districts_cal + num_districts_socal ≠ 52 then
    Except.error
      "Total number of seats across Cal 3 does not match total number of seats for California."
  else
    Except.ok (num_districts_norcal, num_districts_cal, num_districts_socal)

/-- The seat-apportionment prelude of `make_voting_ensembles`: as in the
demographic variant, but the Cal count is unconditionally incremented
(`num_districts_cal += 1`) before the check. -/
def voting_seat_check (totpop_norcal totpop_cal totpop_socal totpop_california : ℚ) :
    Except String (ℤ × ℤ × ℤ) :=
  let num_districts_norcal := pyRound (52 * (totpop_norcal / totpop_california))
  let num_districts_cal := pyRound (52 * (totpop_cal / totpop_california)) + 1
  let num_districts_socal := pyRound (52 * (totpop_socal / totpop_california))
  if num_districts_norcal + num_districts_cal + num_districts_socal ≠ 52 then
    Except.error
      "Total number of seats across Cal 3 does not match total number of seats for California."
  else
    Except.ok (num_districts_norcal, num_districts_cal, num_districts_socal)

/-- A single voting district whose cast total is zero. -/
def zero_total_votes : VotingPartition :=
  ⟨1, fun _ => 0, fun _ => 0, fun _ => 0, ∅⟩

/-- A single demographic district whose total population is zero. -/
def zero_total_pop : DemographicPartition :=
  ⟨1, fun _ => 0, fun _ => 0, ∅⟩

/-! ### Helper lemmas for the checked extractors and the walk -/

theorem walkDistrictsChecked_some_nonzero (p : VotingPartition) (l : List ℕ)
    (acc r : WalkAcc) (h : walkDistrictsChecked p l acc = some r) :
    ∀ i ∈ l, p.district_totvotes i ≠ 0 := by
  induction l generalizing acc with
  | nil => simp
  | cons a t ih =>
    intro i hi
    by_cases ha : p.district_totvotes a = 0
    · simp [walkDistrictsChecked, walkStepChecked, ha] at h
    · simp only [walkDistrictsChecked, walkStepChecked, if_neg ha] at h
      rcases List.mem_cons.1 hi with rfl | hm
      · exact ha
      · exact ih (walkStep p acc a) h i hm

theorem walkDistrictsChecked_some_of_nonzero (p : VotingPartition) (l : List ℕ)
    (acc : WalkAcc) (h : ∀ i ∈ l, p.district_totvotes i ≠ 0) :
    walkDistrictsChecked p l acc = some (l.foldl (walkStep p) acc) := by
  induction l generalizing acc with
  | nil => simp [walkDistrictsChecked]
  | cons a t ih =>
    have ha : p.district_totvotes a ≠ 0 := h a (List.mem_cons_self a t)
    simp only [walkDistrictsChecked, walkStepChecked, if_neg ha, List.foldl_cons]
    exact ih (walkStep p acc a) (fun i hi => h i (List.mem_cons_of_mem a hi))

theorem majmin_count_checked_some_nonzero (p : DemographicPartition) (l : List ℕ)
    (c r : ℕ) (h : majmin_count_checked p l c = some r) :
    ∀ i ∈ l, p.district_totpop i ≠ 0 := by
  induction l generalizing c with
  | nil => simp
  | cons a t ih =>
    intro i hi
    by_cases ha : p.district_totpop a = 0
    · simp [majmin_count_checked, ha] at h
    · rcases List.mem_cons.1 hi with rfl | hm
      · exact ha
      · by_cases hb : p.district_hispanic_latino_pop a / p.district_totpop a > 1/2
        · simp only [majmin_count_checked, if_neg ha, if_pos hb] at h
          exact ih (c + 1) h i hm
        · simp only [majmin_count_checked, if_neg ha, if_neg hb] at h
          exact ih c h i hm

theorem plan_totvotes_pos (p : VotingPartition) (hK : 0 < p.K)
    (hpos : ∀ i < p.K, 0 < p.district_totvotes i) :
    0 < ((List.range p.K).map (fun i => p.district_totvotes i)).sum := by
  apply List.sum_pos
  · intro a ha
    rcases List.mem_map.1 ha with ⟨i, hi, rfl⟩
    exact hpos i (List.mem_range.1 hi)
  · intro hnil
    rw [List.map_eq_nil_iff, List.range_eq_nil] at hnil
    omega

theorem walk_demographic_foldl (rw : List DemographicPartition) (a b : List ℕ) :
    rw.foldl
      (fun acc part => (acc.1 ++ [part.cut_edges.card], acc.2 ++ [majmin_count part]))
      (a, b) =
    (a ++ rw.map (fun part => part.cut_edges.card), b ++ rw.map majmin_count) := by
  induction rw generalizing a b with
  | nil => simp
  | cons q t ih => simp [ih]

theorem walk_demographic_eq (rw : List DemographicPartition) :
    walk_demographic rw =
      (rw.map (fun part => part.cut_edges.card), rw.map majmin_count) := by
  simpa using walk_demographic_foldl rw [] []

/-! ### Claim theorems C6 to C10 and C8 -/

/-- C6: when the three regional per-step statistic sequences all have the
same length `n`, the combined Cal 3 ensemble has length `n` and its `i`-th
element is the sum of the three regions' `i`-th elements. -/
theorem cal3_combine_spec (xs ys zs : List ℚ) (n : ℕ)
    (hx : xs.length = n) (hy : ys.length = n) (hz : zs.length = n) :
    (cal3_combine xs ys zs).length = n ∧
    ∀ i < n, (cal3_combine xs ys zs).getD i 0 =
      xs.getD i 0 + ys.getD i 0 + zs.getD i 0 := by
  refine ⟨?_, fun i hi => cal3_combine_getD xs ys zs n i hx hy hz hi⟩
  rw [cal3_combine_length, hx, hy, hz]
  simp

/-- Witness for C6: three concrete sequences of length 2. -/
theorem cal3_combine_spec_witness :
    (cal3_combine [1, 2] [3, 4] [5, 6]).length = 2 ∧
    ∀ i < 2, (cal3_combine [1, 2] [3, 4] [5, 6]).getD i 0 =
      ([1, 2] : List ℚ).getD i 0 + ([3, 4] : List ℚ).getD i 0 +
        ([5, 6] : List ℚ).getD i 0 :=
  cal3_combine_spec [1, 2] [3, 4] [5, 6] 2 rfl rfl rfl

/-- C7: the walk's output sequences are built append-only in step order —
the `i`-th entry is the statistic of the `i`-th accepted state — and each
has length equal to the number of accepted steps. -/
theorem walk_output_spec (rw : List DemographicPartition) (steps : ℕ)
    (h : rw.length = steps) :
    (walk_demographic rw).1.length = steps ∧
    (walk_demographic rw).2.length = steps ∧
    (∀ i, (walk_demographic rw).1.get? i =
      (rw.get? i).map (fun part => part.cut_edges.card)) ∧
    (∀ i, (walk_demographic rw).2.get? i = (rw.get? i).map majmin_count) := by
  rw [walk_demographic_eq]
  refine ⟨by simpa using h, by simpa using h, ?_, ?_⟩ <;>
    intro i <;> simp [List.get?_eq_getElem?, List.getElem?_map]

/-- Witness for C7: a one-state chain. -/
theorem walk_output_spec_witness :
    (walk_demographic [district_51_of_100]).1.length = 1 ∧
    (walk_demographic [district_51_of_100]).2.length = 1 ∧
    (∀ i, (walk_demographic [district_51_of_100]).1.get? i =
      ([district_51_of_100].get? i).map (fun part => part.cut_edges.card)) ∧
    (∀ i, (walk_demographic [district_51_of_100]).2.get? i =
      ([district_51_of_100].get? i).map majmin_count) :=
  walk_output_spec [district_51_of_100] 1 rfl

/-- C9: for sequences of possibly unequal lengths, the Cal 3 combination
silently truncates to the shortest: its length is the minimum of the three
lengths (never an error); e.g. combining lengths 1, 2, 3 gives length 1. -/
theorem cal3_combine_truncates (xs ys zs : List ℚ) :
    (cal3_combine xs ys zs).length = min (min xs.length ys.length) zs.length ∧
    (cal3_combine [1] [2, 3] [4, 5, 6]).length = 1 :=
  ⟨cal3_combine_length xs ys zs, by rw [cal3_combine_length]; rfl⟩

/-- C10: each generator prelude raises if and only if the three regional
seat counts do not sum to the statewide 52, where each count is the
statewide 52 times the regional population share, rounded to the nearest
integer (Python round, ties to even) — and in the voting variant the Cal
count is that rounded value plus one, added unconditionally. -/
theorem seat_check_raises_iff (tn tc ts tca : ℚ) :
    (isError (demographic_seat_check tn tc ts tca) = true ↔
      pyRound (52 * (tn / tca)) + pyRound (52 * (tc / tca)) +
        pyRound (52 * (ts / tca)) ≠ 52) ∧
    (isError (voting_seat_check tn tc ts tca) = true ↔
      pyRound (52 * (tn / tca)) + (pyRound (52 * (tc / tca)) + 1) +
        pyRound (52 * (ts / tca)) ≠ 52) := by
  constructor
  · by_cases h : pyRound (52 * (tn / tca)) + pyRound (52 * (tc / tca)) +
        pyRound (52 * (ts / tca)) = 52
    · simp [demographic_seat_check, isError, h]
    · simp [demographic_seat_check, isError, h]
  · by_cases h : pyRound (52 * (tn / tca)) + (pyRound (52 * (tc / tca)) + 1) +
        pyRound (52 * (ts / tca)) = 52
    · simp [voting_seat_check, isError, h]
    · simp [voting_seat_check, isError, h]

/-- Witness for C10: the theorem applied at a concrete population split. -/
theorem seat_check_raises_iff_witness :
    (isError (demographic_seat_check 10 10 10 30) = true ↔
      pyRound (52 * (10 / 30)) + pyRound (52 * (10 / 30)) +
        pyRound (52 * (10 / 30)) ≠ 52) ∧
    (isError (voting_seat_check 10 10 10 30) = true ↔
      pyRound (52 * (10 / 30)) + (pyRound (52 * (10 / 30)) + 1) +
        pyRound (52 * (10 / 30)) ≠ 52) :=
  seat_check_raises_iff 10 10 10 30

/-- C8: the statistic extractors divide by each district's primary
aggregate without a guard: extraction succeeds only when every district's
aggregate is nonzero; when all aggregates are positive the error branch is
unreachable and the pure result is returned; and on a partition containing
a zero-aggregate district the extraction fails. -/
theorem unguarded_division_spec :
    (∀ p : VotingPartition, (voting_extract p).isSome →
      ∀ i < p.K, p.district_totvotes i ≠ 0) ∧
    (∀ p : DemographicPartition, (majmin_extract p).isSome →
      ∀ i < p.K, p.district_totpop i ≠ 0) ∧
    (∀ p : VotingPartition, 0 < p.K → (∀ i < p.K, 0 < p.district_totvotes i) →
      voting_extract p = some (republican_seats p, efficiency_gap p)) ∧
    voting_extract zero_total_votes = none ∧
    majmin_extract zero_total_pop = none := by
  refine ⟨?_, ?_, ?_, ?_, ?_⟩
  · intro p h i hi
    rcases hw : walkDistrictsChecked p (List.range p.K) ⟨0, 0, 0, 0⟩ with _ | acc
    · simp [voting_extract, hw] at h
    · exact walkDistrictsChecked_some_nonzero p _ _ acc hw i (List.mem_range.2 hi)
  · intro p h i hi
    rcases hw : majmin_count_checked p (List.range p.K) 0 with _ | r
    · simp [majmin_extract, hw] at h
    · exact majmin_count_checked_some_nonzero p _ _ r hw i (List.mem_range.2 hi)
  · intro p hK hpos
    have hnz : ∀ i ∈ List.range p.K, p.district_totvotes i ≠ 0 :=
      fun i hi => ne_of_gt (hpos i (List.mem_range.1 hi))
    have hsome := walkDistrictsChecked_some_of_nonzero p (List.range p.K) ⟨0, 0, 0, 0⟩ hnz
    have hplan : ((List.range p.K).foldl (walkStep p) ⟨0, 0, 0, 0⟩).plan_totvotes ≠ 0 := by
      have : (List.range p.K).foldl (walkStep p) ⟨0, 0, 0, 0⟩ = walkDistricts p := rfl
      rw [this, walkDistricts_plan_totvotes]
      exact ne_of_gt (plan_totvotes_pos p hK hpos)
    simp [voting_extract, hsome, hplan, republican_seats, efficiency_gap, walkDistricts]
  · rfl
  · rfl

/-- Witness for C8: the successful branch at the 60/40/100 district. -/
theorem unguarded_division_spec_witness :
    voting_extract sixty_forty =
      some (republican_seats sixty_forty, efficiency_gap sixty_forty) :=
  unguarded_division_spec.2.2.1 sixty_forty (by norm_num [sixty_forty])
    (by intro i _; norm_num [sixty_forty])

end CalRedistricting
